import Mathlib

/-!
# Verification of the SST report core (streamlit_app.py)

A shallow embedding of the two pieces of reusable logic in the script:
the cached sea-surface-temperature fetcher `load_sst` (primary/fallback
open, fixed spatial window, all-missing check, result cache keyed by
date) and the chart primitives `bullet`, `lollipop_horizontal` and
`waffle`.  Numeric values are modelled as rationals, missing samples
(NaN) as `Option.none`, the remote service as an explicit `World`
giving the outcome of each access strategy per URL, and the
`st.cache_data` decorator as an explicit association-list cache.
-/

/-! ## Small helpers shared by the embeddings -/

/-- Python `s.endswith(t)`: `t` is a suffix of the code-point sequence of `s`. -/
def strEndsWith (s t : String) : Bool :=
  t.data.isSuffixOf s.data

/-- Left-pad a digit string with zeros up to width `d`. -/
def padZeros (d : Nat) (s : String) : String :=
  if s.length < d then String.mk (List.replicate (d - s.length) '0') ++ s else s

/-- Python `round`: round to the nearest integer, halves to the even integer. -/
def roundHalfEven (q : ℚ) : Int :=
  let f := ⌊q⌋
  if q - f < 1/2 then f
  else if (1/2 : ℚ) < q - f then f + 1
  else if f % 2 = 0 then f else f + 1

/-- Python fixed-point formatting `f"{q:.df}"` on an exact rational. -/
def fmtFixed (d : Nat) (q : ℚ) : String :=
  let t : Int := roundHalfEven (q * (10 ^ d : ℚ))
  let sign := if t < 0 then "-" else ""
  let a := t.natAbs
  if d = 0 then sign ++ toString a
  else sign ++ toString (a / 10 ^ d) ++ "." ++ padZeros d (toString (a % 10 ^ d))

/-- Python `max` over a list of rationals (`0` on the empty list, which the
source never produces). -/
def listMax : List ℚ → ℚ
  | [] => 0
  | x :: xs => xs.foldl max x

/-- Python `np.argmax`: index of the first occurrence of the maximum. -/
def argmaxFirst : List ℚ → Nat
  | [] => 0
  | x :: xs => if listMax (x :: xs) ≤ x then 0 else argmaxFirst xs + 1

/-- One step of the stable ascending insertion underlying `np.argsort`
(numpy uses a stable insertion sort for the short arrays this script
sorts): insert index `i` before the first index holding a strictly
larger value. -/
def insertIdx (v : List ℚ) (i : Nat) : List Nat → List Nat
  | [] => [i]
  | j :: rest => if v.getD i 0 < v.getD j 0 then i :: j :: rest else j :: insertIdx v i rest

/-- Python `np.argsort(values)`: indices of `values` in stable ascending value order. -/
def argsortAsc (v : List ℚ) : List Nat :=
  (List.range v.length).foldl (fun acc i => insertIdx v i acc) []

/-! ## GeoGridFetcher: the `load_sst` embedding -/

/-- One sample of the opened yearly dataset: a time key (the calendar-day
string the `time` coordinate renders to), coordinates, and the SST value,
`none` standing for NaN. -/
structure SSTPoint where
  time : String
  lat : ℚ
  lon : ℚ
  val : Option ℚ
deriving DecidableEq

/-- The opened per-year resource, flattened to its samples. -/
abbrev Dataset := List SSTPoint

/-- The two access strategies of the fetch: `xr.open_dataset(url)` and the
`engine="pydap"` retry. -/
inductive Strategy
  | primary
  | fallback
deriving DecidableEq

/-- The remote service: for each URL, what each access strategy would
return (a dataset, or the message of the exception it raises). -/
structure World where
  primary : String → Except String Dataset
  fallback : String → Except String Dataset

/-- A calendar date (`datetime.date`). -/
structure Date where
  year : Nat
  month : Nat
  day : Nat
deriving DecidableEq

/-- Two-digit zero padding used by `strftime`. -/
def pad2 (n : Nat) : String :=
  if n < 10 then "0" ++ toString n else toString n

/-- Python `date.strftime("%Y-%m-%d")`. -/
def dateKey (d : Date) : String :=
  toString d.year ++ "-" ++ pad2 d.month ++ "-" ++ pad2 d.day

/-- The URL `BASE_URL.format(year=year)`. -/
def urlFor (year : Nat) : String :=
  "https://psl.noaa.gov/thredds/dodsC/Datasets/noaa.oisst.v2.highres/sst.day.mean."
    ++ toString year ++ ".nc"

/-- The nested `try` of `load_sst`: open with the primary strategy and on
any failure retry once with the fallback engine; the fallback's outcome
(including its exception) is what the inner block produces. -/
def openSST (w : World) (url : String) : Except String Dataset :=
  match w.primary url with
  | Except.ok ds => Except.ok ds
  | Except.error _ => w.fallback url

/-- The access strategies attempted by `openSST`, in order. -/
def openTrace (w : World) (url : String) : List Strategy :=
  match w.primary url with
  | Except.ok _ => [Strategy.primary]
  | Except.error _ => [Strategy.primary, Strategy.fallback]

/-- The spatial window hard-coded in `load_sst`:
`lat=slice(28, 42), lon=slice(120, 135)` (xarray label slices are
inclusive on both ends on these ascending coordinates). -/
def inWindow (p : SSTPoint) : Bool :=
  decide ((28 : ℚ) ≤ p.lat) && decide (p.lat ≤ (42 : ℚ)) &&
    decide ((120 : ℚ) ≤ p.lon) && decide (p.lon ≤ (135 : ℚ))

/-- The slice `ds["sst"].sel(time=key, lat=slice(28, 42), lon=slice(120, 135))`:
the samples of the one exactly matching day inside the fixed window. -/
def selDay (ds : Dataset) (key : String) : Dataset :=
  ds.filter (fun p => p.time == key && inWindow p)

/-- Whether the `time` coordinate holds the requested day at all; if not,
`.sel` raises a `KeyError` (caught by the outer `except`). -/
def hasDay (ds : Dataset) (key : String) : Bool :=
  ds.any (fun p => p.time == key)

/-- Python `np.all(np.isnan(da.values))` (true on an empty selection, as in numpy). -/
def allMissing (g : Dataset) : Bool :=
  g.all (fun p => p.val == none)

/-- The message passed to `st.error`. -/
def errorText (e : String) : String :=
  "데이터 불러오기 실패: " ++ e

/-- The body of `load_sst(date)` (one uncached evaluation): first
component is the value returned to the caller, second the error message
displayed via `st.error` (if any).  Both access-strategy failures and a
`KeyError` from `.sel` reach the outer `except` and return `None` with a
displayed message; an all-NaN selection returns `None` silently. -/
def load_sst (w : World) (d : Date) : Option Dataset × Option String :=
  match openSST w (urlFor d.year) with
  | Except.error e => (none, some (errorText e))
  | Except.ok ds =>
      if hasDay ds (dateKey d) then
        let da := selDay ds (dateKey d)
        if allMissing da then (none, none) else (some da, none)
      else (none, some (errorText ("KeyError: " ++ dateKey d)))

/-- Modelled from the spec: the contract
`fetch(date, lat_range, lon_range) -> GeoGridResult | Absent` — the same
fetch but with the latitude and longitude ranges taken as parameters, the
grid being the sub-window given by those bounds.  Stated only to be
compared with `load_sst`, whose window is fixed. -/
def fetchSpec (w : World) (d : Date) (latLo latHi lonLo lonHi : ℚ) :
    Option Dataset × Option String :=
  match openSST w (urlFor d.year) with
  | Except.error e => (none, some (errorText e))
  | Except.ok ds =>
      if hasDay ds (dateKey d) then
        let da := ds.filter (fun p => p.time == dateKey d &&
          (decide (latLo ≤ p.lat) && decide (p.lat ≤ latHi) &&
            decide (lonLo ≤ p.lon) && decide (p.lon ≤ lonHi)))
        if allMissing da then (none, none) else (some da, none)
      else (none, some (errorText ("KeyError: " ++ dateKey d)))

/-- The `st.cache_data` store: one entry per date key, holding the cached
return value together with the `st.error` message recorded for replay. -/
abbrev Cache := List (Date × (Option Dataset × Option String))

/-- Lookup by date key. -/
def cacheLookup : Cache → Date → Option (Option Dataset × Option String)
  | [], _ => none
  | e :: rest, d => if e.1 = d then some e.2 else cacheLookup rest d

/-- Everything one call of the decorated `load_sst` produces: the value
handed to the caller, the message shown (afresh or replayed), the cache
afterwards, and whether the network was touched. -/
structure CallResult where
  value : Option Dataset
  displayed : Option String
  cache : Cache
  network : Bool
deriving DecidableEq

/-- One call of the `@st.cache_data`-decorated `load_sst`: a hit returns
the stored outcome without network access; a miss runs the body, touches
the network, and stores the outcome (whatever it is) under the date. -/
def load_sst_cached (c : Cache) (w : World) (d : Date) : CallResult :=
  match cacheLookup c d with
  | some r => { value := r.1, displayed := r.2, cache := c, network := false }
  | none =>
      let r := load_sst w d
      { value := r.1, displayed := r.2, cache := (d, r) :: c, network := true }

/-- The cache invariant: at most one entry per date key. -/
def cacheKeysUnique (c : Cache) : Prop :=
  c.Pairwise (fun a b => a.1 ≠ b.1)

/-! ## ChartPrimitives -/

/-- What `bullet(ax, value, target, label, color)` draws. -/
structure BulletRender where
  vmin : ℚ
  vmax : ℚ
  trackWidth : ℚ
  fillWidth : ℚ
  targetX : ℚ
  valueText : String
  badgeText : String
  badgeColor : String
deriving DecidableEq

/-- The bullet chart: range with symmetric padding `(hi-lo)*0.5 + 0.5`,
background track, fill up to `value`, target marker, and the signed
one-decimal delta badge whose facecolor is chosen by `delta >= 0`. -/
def bullet (value target : ℚ) : BulletRender :=
  let lo := min value target
  let hi := max value target
  let pad := (hi - lo) * (1/2) + 1/2
  let vmin := lo - pad
  let vmax := hi + pad
  let delta := value - target
  { vmin := vmin
    vmax := vmax
    trackWidth := vmax - vmin
    fillWidth := value - vmin
    targetX := target
    valueText := fmtFixed 1 value ++ "℃"
    badgeText := if 0 ≤ delta then "+" ++ fmtFixed 1 delta ++ "℃"
      else fmtFixed 1 delta ++ "℃"
    badgeColor := if 0 ≤ delta then "#C1272D" else "#2B7A78" }

/-- One stem/dot/label row of the lollipop chart, at vertical position
equal to its index in the rendered list. -/
structure LRow where
  label : String
  value : ℚ
  dotColor : String
  weightTxt : String
  labelX : ℚ
  decimals : Nat
  valText : String
deriving DecidableEq, Inhabited

/-- The order `insertIdx` establishes on indices: strictly smaller value,
or value not larger and the index older.  `argsortAsc` is pairwise
ordered by it. -/
def IdxLe (v : List ℚ) (a b : Nat) : Prop :=
  v.getD a 0 < v.getD b 0 ∨ (v.getD a 0 ≤ v.getD b 0 ∧ a < b)

/-- The chart `lollipop_horizontal`: order the pairs by `np.argsort(values)[::-1]`,
highlight the row at `np.argmax` of the sorted values, place each value
label at `v + max(values_sorted)*0.03`, and format it with two decimals
when the unit string ends in "년", one otherwise. -/
def lollipop_horizontal (labels : List String) (values : List ℚ) (unit : String)
    (color : String) (highlight_color : String) : List LRow :=
  let idx := (argsortAsc values).reverse
  let labelsSorted := idx.map (fun i => labels.getD i "")
  let valuesSorted := idx.map (fun i => values.getD i 0)
  let vmaxI := argmaxFirst valuesSorted
  let vmax := listMax valuesSorted
  let dec := if strEndsWith unit "년" then 2 else 1
  (List.range valuesSorted.length).map (fun i =>
    let v := valuesSorted.getD i 0
    { label := labelsSorted.getD i ""
      value := v
      dotColor := if i = vmaxI then highlight_color else color
      weightTxt := if i = vmaxI then "bold" else "500"
      labelX := v + vmax * 3 / 100
      decimals := dec
      valText := fmtFixed dec v ++ unit })

/-- The sorted index order `np.argsort(values)[::-1]` used by the chart. -/
def lollipopIdx (values : List ℚ) : List Nat :=
  (argsortAsc values).reverse

/-- The count `int(round(percent/100*total))`: how many waffle cells are filled. -/
def waffleK (percent : ℚ) (rows cols : Nat) : Int :=
  roundHalfEven (percent / 100 * ((rows * cols : Nat) : ℚ))

/-- Whether cell `i` (row-major index) is drawn in the on-color. -/
def waffleCellOn (percent : ℚ) (rows cols : Nat) (i : Nat) : Bool :=
  decide ((i : Int) < waffleK percent rows cols)

/-- The rectangles the waffle draws: cell `i` sits at
`(i % cols, rows - 1 - i / cols)`, so index order fills row-major from
the top row down. -/
def waffleCells (percent : ℚ) (rows cols : Nat) : List (Nat × Nat × Bool) :=
  (List.range (rows * cols)).map (fun i =>
    (i % cols, rows - 1 - i / cols, waffleCellOn percent rows cols i))

/-- Number of cells drawn in the on-color. -/
def waffleOnCount (percent : ℚ) (rows cols : Nat) : Nat :=
  ((List.range (rows * cols)).filter (fun i => waffleCellOn percent rows cols i)).length

/-- The centered `f"{percent:.0f}%"` label, drawn unconditionally. -/
def waffleLabel (percent : ℚ) : String :=
  fmtFixed 0 percent ++ "%"

/-! ## Concrete scenarios used by counterexamples and witnesses -/

/-- A demo dataset: one valid sample inside the fixed window, one south
of it, both on 2024-10-01. -/
def dsDemo : Dataset :=
  [⟨"2024-10-01", 5, 125, some 1⟩, ⟨"2024-10-01", 30, 125, some 2⟩]

/-- A service on which both strategies succeed with `dsDemo`. -/
def wDemo : World :=
  ⟨fun _ => Except.ok dsDemo, fun _ => Except.ok dsDemo⟩

/-- The demo date. -/
def dDemo : Date := ⟨2024, 10, 1⟩

/-- A service on which both access strategies fail. -/
def wBothFail : World :=
  ⟨fun _ => Except.error "primary down", fun _ => Except.error "pydap down"⟩

/-- A dataset whose only sample on the demo date inside the window is NaN. -/
def dsAllNaN : Dataset :=
  [⟨"2024-10-01", 30, 125, none⟩]

/-- A service whose primary strategy succeeds with the all-NaN dataset. -/
def wAllNaN : World :=
  ⟨fun _ => Except.ok dsAllNaN, fun _ => Except.error "unused"⟩

/-! ## Lemmas about the fetcher -/

/-- If the primary strategy fails, the fallback is attempted, exactly once
and directly after the primary. -/
lemma openTrace_primary_fail (w : World) (url : String) (e : String)
    (hp : w.primary url = Except.error e) :
    openTrace w url = [Strategy.primary, Strategy.fallback] := by
  simp [openTrace, hp]

/-- If the primary strategy succeeds, the fallback is never attempted. -/
lemma openTrace_primary_ok (w : World) (url : String) (ds : Dataset)
    (hp : w.primary url = Except.ok ds) :
    openTrace w url = [Strategy.primary] := by
  simp [openTrace, hp]

/-- Both strategies failing: the caller gets `None` and the fallback's
exception message is displayed. -/
lemma load_sst_both_fail (w : World) (d : Date) (e e' : String)
    (hp : w.primary (urlFor d.year) = Except.error e)
    (hf : w.fallback (urlFor d.year) = Except.error e') :
    load_sst w d = (none, some (errorText e')) := by
  simp [load_sst, openSST, hp, hf]

/-- Successful query, all samples missing: the caller gets `None` and no
message is displayed. -/
lemma load_sst_absent (w : World) (d : Date) (ds : Dataset)
    (ho : openSST w (urlFor d.year) = Except.ok ds)
    (hd : hasDay ds (dateKey d) = true)
    (hm : allMissing (selDay ds (dateKey d)) = true) :
    load_sst w d = (none, none) := by
  simp [load_sst, ho, hd, hm]

/-- Successful query with at least one valid sample: the caller gets the
fixed-window day slice. -/
lemma load_sst_success (w : World) (d : Date) (ds : Dataset)
    (ho : openSST w (urlFor d.year) = Except.ok ds)
    (hd : hasDay ds (dateKey d) = true)
    (hm : allMissing (selDay ds (dateKey d)) = false) :
    load_sst w d = (some (selDay ds (dateKey d)), none) := by
  simp [load_sst, ho, hd, hm]

/-- A date is missing from the cache iff no entry carries it. -/
lemma cacheLookup_eq_none_iff (c : Cache) (d : Date) :
    cacheLookup c d = none ↔ ∀ x ∈ c, x.1 ≠ d := by
  induction c with
  | nil => simp [cacheLookup]
  | cons e rest ih =>
      by_cases he : e.1 = d
      · simp [cacheLookup, he]
      · simp [cacheLookup, he, ih]

/-- Inserting a fresh date preserves key uniqueness. -/
lemma cacheKeysUnique_insert (c : Cache) (d : Date) (r : Option Dataset × Option String)
    (hu : cacheKeysUnique c) (hmiss : cacheLookup c d = none) :
    cacheKeysUnique ((d, r) :: c) := by
  refine List.Pairwise.cons ?_ hu
  intro x hx
  exact fun h => ((cacheLookup_eq_none_iff c d).mp hmiss x hx) (h ▸ rfl)

/-! ## Claim C1 -/

/-- Claim C1, counterexample: the claim calls the `DataUnavailable` and
`Absent` outcomes distinguishable by the caller, but the value returned
to the caller is `None` in both cases — on a service where both
strategies fail and on one that succeeds with an all-NaN grid, the
caller receives the same value. -/
theorem C1_counterexample :
    (load_sst wBothFail dDemo).1 = none ∧ (load_sst wAllNaN dDemo).1 = none ∧
      (load_sst wBothFail dDemo).1 = (load_sst wAllNaN dDemo).1 := by
  decide

/-- Claim C1, amended: if the primary access strategy fails the fallback
is attempted exactly once (and never otherwise); when both fail the call
returns `None` with the failure message displayed (the `DataUnavailable`
outcome); a successful query whose grid has every value missing returns
`None` with no message (the `Absent` outcome).  The two outcomes are
distinguishable only by the displayed message, not by the returned
value, which is `None` in both cases. -/
theorem C1_fallback_once_and_outcomes (w : World) (d : Date) :
    (∀ e, w.primary (urlFor d.year) = Except.error e →
      openTrace w (urlFor d.year) = [Strategy.primary, Strategy.fallback]) ∧
    (∀ ds, w.primary (urlFor d.year) = Except.ok ds →
      openTrace w (urlFor d.year) = [Strategy.primary]) ∧
    (∀ e e', w.primary (urlFor d.year) = Except.error e →
      w.fallback (urlFor d.year) = Except.error e' →
      load_sst w d = (none, some (errorText e'))) ∧
    (∀ ds, openSST w (urlFor d.year) = Except.ok ds →
      hasDay ds (dateKey d) = true →
      allMissing (selDay ds (dateKey d)) = true →
      load_sst w d = (none, none)) := by
  refine ⟨?_, ?_, ?_, ?_⟩
  · exact fun e hp => openTrace_primary_fail w _ e hp
  · exact fun ds hp => openTrace_primary_ok w _ ds hp
  · exact fun e e' hp hf => load_sst_both_fail w d e e' hp hf
  · exact fun ds ho hd hm => load_sst_absent w d ds ho hd hm

/-- Claim C1, witness: the amended theorem applied to the two concrete
services. -/
theorem C1_witness :
    load_sst wBothFail dDemo = (none, some (errorText "pydap down")) ∧
    load_sst wAllNaN dDemo = (none, none) := by
  constructor
  · exact (C1_fallback_once_and_outcomes wBothFail dDemo).2.2.1 "primary down" "pydap down"
      rfl rfl
  · exact (C1_fallback_once_and_outcomes wAllNaN dDemo).2.2.2 dsAllNaN rfl
      (by decide) (by decide)

/-! ## Claim C2 -/

/-- Claim C2, counterexample: after a first call on which both strategies
fail, a second call with the same date does not re-attempt the network
fetch — it returns the cached `None` outcome. -/
theorem C2_counterexample :
    (load_sst_cached (load_sst_cached [] wBothFail dDemo).cache wBothFail dDemo).network
        = false ∧
      (load_sst_cached (load_sst_cached [] wBothFail dDemo).cache wBothFail dDemo).value
        = none := by
  decide

/-- Claim C2, amended: when both strategies fail, the failure message is
surfaced for display on the computing call and the fetch is not retried
within the call — but `st.cache_data` stores the `None` outcome under
the date key, so a subsequent call with the same date returns the cached
failure without re-attempting the network fetch. -/
theorem C2_failure_is_cached (c : Cache) (w : World) (d : Date) (e e' : String)
    (hp : w.primary (urlFor d.year) = Except.error e)
    (hf : w.fallback (urlFor d.year) = Except.error e')
    (hmiss : cacheLookup c d = none) :
    (load_sst_cached c w d).value = none ∧
    (load_sst_cached c w d).displayed = some (errorText e') ∧
    (load_sst_cached c w d).network = true ∧
    cacheLookup (load_sst_cached c w d).cache d = some (none, some (errorText e')) ∧
    (load_sst_cached (load_sst_cached c w d).cache w d).network = false ∧
    (load_sst_cached (load_sst_cached c w d).cache w d).value = none := by
  have hload := load_sst_both_fail w d e e' hp hf
  have h1 : load_sst_cached c w d =
      { value := none, displayed := some (errorText e'),
        cache := (d, (none, some (errorText e'))) :: c, network := true } := by
    simp [load_sst_cached, hmiss, hload]
  have h2 : cacheLookup ((d, ((none : Option Dataset), some (errorText e'))) :: c) d
      = some (none, some (errorText e')) := by
    simp [cacheLookup]
  refine ⟨by simp [h1], by simp [h1], by simp [h1], by rw [h1]; exact h2, ?_, ?_⟩
  · rw [h1]
    simp [load_sst_cached, cacheLookup]
  · rw [h1]
    simp [load_sst_cached, cacheLookup]

/-- Claim C2, witness: the amended theorem at the concrete failing
service, empty cache and demo date. -/
theorem C2_witness :
    (load_sst_cached [] wBothFail dDemo).network = true ∧
    (load_sst_cached (load_sst_cached [] wBothFail dDemo).cache wBothFail dDemo).network
      = false := by
  have h := C2_failure_is_cached [] wBothFail dDemo "primary down" "pydap down"
    rfl rfl rfl
  exact ⟨h.2.2.1, h.2.2.2.2.1⟩

/-! ## Claim C3 -/

/-- Claim C3: when a first fetch succeeds, an immediately following call
with the same date returns the identical result from the cache with no
second network access; the cache keeps at most one entry per date and
existing entries are untouched. -/
theorem C3_cache_idempotent (c : Cache) (w : World) (d : Date) (g : Dataset)
    (hu : cacheKeysUnique c)
    (hs : (load_sst_cached c w d).value = some g) :
    (load_sst_cached (load_sst_cached c w d).cache w d).value = some g ∧
    (load_sst_cached (load_sst_cached c w d).cache w d).value
      = (load_sst_cached c w d).value ∧
    (load_sst_cached (load_sst_cached c w d).cache w d).network = false ∧
    (load_sst_cached (load_sst_cached c w d).cache w d).cache
      = (load_sst_cached c w d).cache ∧
    cacheKeysUnique (load_sst_cached c w d).cache ∧
    (∀ x ∈ c, x ∈ (load_sst_cached c w d).cache) := by
  cases hlk : cacheLookup c d with
  | some r =>
      have h1 : load_sst_cached c w d =
          { value := r.1, displayed := r.2, cache := c, network := false } := by
        simp [load_sst_cached, hlk]
      have hc : (load_sst_cached c w d).cache = c := by rw [h1]
      have hs' : r.1 = some g := by
        rw [h1] at hs
        simpa using hs
      rw [hc, h1]
      exact ⟨hs', rfl, rfl, rfl, hu, fun x hx => hx⟩
  | none =>
      have h1 : load_sst_cached c w d =
          { value := (load_sst w d).1, displayed := (load_sst w d).2,
            cache := (d, load_sst w d) :: c, network := true } := by
        simp [load_sst_cached, hlk]
      rw [h1] at hs ⊢
      simp only at hs ⊢
      rw [load_sst_cached]
      simp only [cacheLookup, if_pos rfl]
      refine ⟨hs, rfl, rfl, rfl, cacheKeysUnique_insert c d _ hu hlk, ?_⟩
      exact fun x hx => List.mem_cons_of_mem _ hx

/-- Claim C3, witness: on the demo service the first call stores the
valid day slice and the second call replays it without network access. -/
theorem C3_witness :
    cacheKeysUnique ([] : Cache) ∧
    (load_sst_cached [] wDemo dDemo).value
      = some [⟨"2024-10-01", 30, 125, some 2⟩] ∧
    (load_sst_cached (load_sst_cached [] wDemo dDemo).cache wDemo dDemo).value
      = some [⟨"2024-10-01", 30, 125, some 2⟩] ∧
    (load_sst_cached (load_sst_cached [] wDemo dDemo).cache wDemo dDemo).network
      = false := by
  have hu : cacheKeysUnique ([] : Cache) := List.Pairwise.nil
  have hs : (load_sst_cached [] wDemo dDemo).value
      = some [⟨"2024-10-01", 30, 125, some 2⟩] := by decide
  have h := C3_cache_idempotent [] wDemo dDemo [⟨"2024-10-01", 30, 125, some 2⟩] hu hs
  exact ⟨hu, hs, h.1, h.2.2.1⟩

/-! ## Claim C4 -/

/-- Claim C4, counterexample: the fetch does not take the latitude and
longitude ranges as parameters — its window is hard-coded.  On a dataset
with a sample at latitude 5, the spec-shaped fetch for the requested
window lat 0–10 returns that sample, while `load_sst` ignores the
request and returns the sample of its fixed window. -/
theorem C4_counterexample :
    load_sst wDemo dDemo ≠ fetchSpec wDemo dDemo 0 10 120 135 ∧
    fetchSpec wDemo dDemo 0 10 120 135 = (some [⟨"2024-10-01", 5, 125, some 1⟩], none) ∧
    load_sst wDemo dDemo = (some [⟨"2024-10-01", 30, 125, some 2⟩], none) := by
  refine ⟨?_, by decide, by decide⟩
  decide

/-- Claim C4, amended: the fetch takes only the date; its spatial window
is fixed at latitude 28–42 and longitude 120–135.  On success it returns
the sub-window for those fixed bounds restricted to the single time
slice exactly matching the requested calendar day (and it agrees with
the spec-shaped fetch exactly when that fetch is called with the fixed
bounds). -/
theorem C4_fixed_window_slice (w : World) (d : Date) (ds : Dataset)
    (ho : openSST w (urlFor d.year) = Except.ok ds)
    (hd : hasDay ds (dateKey d) = true)
    (hm : allMissing (selDay ds (dateKey d)) = false) :
    load_sst w d = (some (selDay ds (dateKey d)), none) ∧
    fetchSpec w d 28 42 120 135 = load_sst w d ∧
    (∀ p ∈ selDay ds (dateKey d), p.time = dateKey d ∧
      28 ≤ p.lat ∧ p.lat ≤ 42 ∧ 120 ≤ p.lon ∧ p.lon ≤ 135 ∧ p ∈ ds) := by
  refine ⟨load_sst_success w d ds ho hd hm, ?_, ?_⟩
  · have : fetchSpec w d 28 42 120 135 = load_sst w d := by
      simp only [fetchSpec, load_sst, selDay, inWindow]
    exact this
  · intro p hp
    rw [selDay, List.mem_filter] at hp
    obtain ⟨hmem, hcond⟩ := hp
    simp only [Bool.and_eq_true, beq_iff_eq, inWindow, decide_eq_true_eq] at hcond
    exact ⟨hcond.1, hcond.2.1.1.1, hcond.2.1.1.2, hcond.2.1.2, hcond.2.2, hmem⟩

/-- Claim C4, witness: the amended theorem at the demo service and date. -/
theorem C4_witness :
    openSST wDemo (urlFor dDemo.year) = Except.ok dsDemo ∧
    hasDay dsDemo (dateKey dDemo) = true ∧
    allMissing (selDay dsDemo (dateKey dDemo)) = false ∧
    load_sst wDemo dDemo = (some (selDay dsDemo (dateKey dDemo)), none) ∧
    fetchSpec wDemo dDemo 28 42 120 135 = load_sst wDemo dDemo := by
  have h := C4_fixed_window_slice wDemo dDemo dsDemo rfl (by decide) (by decide)
  exact ⟨rfl, by decide, by decide, h.1, h.2.1⟩

/-! ## Lemmas about rounding, counting and indexing -/

/-- Rounding `roundHalfEven` never goes below an integer lower bound. -/
lemma le_roundHalfEven (q : ℚ) (m : Int) (h : (m : ℚ) ≤ q) : m ≤ roundHalfEven q := by
  have hf : m ≤ ⌊q⌋ := Int.le_floor.mpr h
  simp only [roundHalfEven]
  split_ifs <;> omega

/-- Rounding `roundHalfEven` never goes above an integer upper bound. -/
lemma roundHalfEven_le (q : ℚ) (m : Int) (h : q ≤ (m : ℚ)) : roundHalfEven q ≤ m := by
  have hfq : (⌊q⌋ : ℚ) ≤ q := Int.floor_le q
  have hf : ⌊q⌋ ≤ m := by
    have hmono := Int.floor_le_floor h
    rwa [Int.floor_intCast] at hmono
  simp only [roundHalfEven]
  split_ifs with h1 h2 h3
  · exact hf
  · have hlt : (⌊q⌋ : ℚ) < m := by linarith
    have : ⌊q⌋ < m := by exact_mod_cast hlt
    omega
  · exact hf
  · have heq : (1 : ℚ)/2 ≤ q - ⌊q⌋ := le_of_not_lt h1
    have hlt : (⌊q⌋ : ℚ) < m := by linarith
    have : ⌊q⌋ < m := by exact_mod_cast hlt
    omega

/-- On integers, `roundHalfEven` is the identity. -/
lemma roundHalfEven_intCast (m : Int) : roundHalfEven (m : ℚ) = m := by
  simp only [roundHalfEven, Int.floor_intCast]
  norm_num

/-- Counting the naturals below an integer bound inside `range n`. -/
lemma length_filter_range_lt (k : Int) (n : Nat) :
    ((List.range n).filter (fun (i : Nat) => decide ((i : Int) < k))).length
      = (min k n).toNat := by
  induction n with
  | zero => simp; omega
  | succ n ih =>
      rw [List.range_succ, List.filter_append]
      by_cases h : (n : Int) < k
      · simp [h, ih]
        omega
      · simp [h, ih]
        omega

/-- Reading `getD` through a `map` over `range`. -/
lemma getD_map_range {α : Type} (f : Nat → α) (n i : Nat) (h : i < n) (d : α) :
    ((List.range n).map f).getD i d = f i := by
  rw [List.getD_eq_getElem?_getD, List.getElem?_map, List.getElem?_range h]
  rfl

/-! ## Claim C7 -/

/-- Claim C7: the bullet bar range pads symmetrically by half the
value/target span plus the fixed margin 1/2, hence strictly contains
both `value` and `target` with at least 1/2 of margin on each side —
also when `value = target`. -/
theorem C7_bullet_range_contains (value target : ℚ) :
    (bullet value target).vmin < min value target ∧
    max value target < (bullet value target).vmax ∧
    min value target - (bullet value target).vmin
      = (max value target - min value target) / 2 + 1 / 2 ∧
    (bullet value target).vmax - max value target
      = (max value target - min value target) / 2 + 1 / 2 ∧
    1 / 2 ≤ min value target - (bullet value target).vmin ∧
    (bullet value target).vmin < value ∧ value < (bullet value target).vmax ∧
    (bullet value target).vmin < target ∧ target < (bullet value target).vmax := by
  have hm : min value target ≤ max value target := min_le_max
  have hv1 : min value target ≤ value := min_le_left value target
  have hv2 : value ≤ max value target := le_max_left value target
  have ht1 : min value target ≤ target := min_le_right value target
  have ht2 : target ≤ max value target := le_max_right value target
  have h1 : (bullet value target).vmin
      = min value target - ((max value target - min value target) * (1/2) + 1/2) := rfl
  have h2 : (bullet value target).vmax
      = max value target + ((max value target - min value target) * (1/2) + 1/2) := rfl
  rw [h1, h2]
  refine ⟨by linarith, by linarith, by ring, by ring, by linarith,
    by linarith, by linarith, by linarith, by linarith⟩

/-! ## Claim C8 -/

/-- Claim C8, counterexample: `value = target` gives delta zero, and the
code's `delta >= 0` test routes it to the positive badge color
`#C1272D`, not to the non-positive color `#2B7A78` the claim expects. -/
theorem C8_counterexample :
    (bullet 1 1).badgeColor = "#C1272D" ∧
    (bullet 1 1).badgeColor ≠ "#2B7A78" ∧
    (bullet 1 1).badgeText = "+0.0℃" := by
  have hd : (1 : ℚ) - 1 = 0 := by norm_num
  have hcol : (bullet 1 1).badgeColor = "#C1272D" := by
    rw [bullet]
    norm_num
  have htxt : (bullet 1 1).badgeText = "+0.0℃" := by
    rw [bullet]
    simp only [hd]
    have h2 : roundHalfEven ((0 : ℚ) * 10 ^ (1 : Nat)) = 0 := by
      norm_num [roundHalfEven]
    rw [if_pos le_rfl, fmtFixed, h2]
    decide
  exact ⟨hcol, by rw [hcol]; decide, htxt⟩

/-- Claim C8, amended: the badge text is the sign-prefixed one-decimal
delta and its color encodes `delta >= 0` — a nonnegative delta
(including the `value = target` zero case) uses the positive color
`#C1272D` and the `+` prefix, a strictly negative delta uses `#2B7A78`;
the two colors are distinct. -/
theorem C8_badge_sign (value target : ℚ) :
    (0 ≤ value - target →
      (bullet value target).badgeText = "+" ++ fmtFixed 1 (value - target) ++ "℃" ∧
      (bullet value target).badgeColor = "#C1272D") ∧
    (value - target < 0 →
      (bullet value target).badgeText = fmtFixed 1 (value - target) ++ "℃" ∧
      (bullet value target).badgeColor = "#2B7A78") ∧
    ("#C1272D" : String) ≠ "#2B7A78" := by
  refine ⟨fun h => ?_, fun h => ?_, by decide⟩
  · rw [bullet]
    simp [h]
  · rw [bullet]
    simp [not_le.mpr h]

/-- Claim C8, witness: `bullet(23.2, 21.2)` takes the positive path with
badge `+2.0℃` and the positive color. -/
theorem C8_witness :
    (0 : ℚ) ≤ 232/10 - 212/10 ∧
    (bullet (232/10) (212/10)).badgeText = "+2.0℃" ∧
    (bullet (232/10) (212/10)).badgeColor = "#C1272D" := by
  have hpos : (0 : ℚ) ≤ 232/10 - 212/10 := by norm_num
  have h := (C8_badge_sign (232/10) (212/10)).1 hpos
  have hdelta : (232 : ℚ)/10 - 212/10 = 2 := by norm_num
  have hfmt : fmtFixed 1 ((232 : ℚ)/10 - 212/10) = "2.0" := by
    rw [hdelta]
    have h2 : roundHalfEven ((2 : ℚ) * 10 ^ (1 : Nat)) = 20 := by
      norm_num [roundHalfEven]
    rw [fmtFixed, h2]
    decide
  refine ⟨hpos, ?_, h.2⟩
  rw [h.1, hfmt]
  decide

/-! ## Claim C6 -/

/-- Claim C6: for `percent` in `[0, 100]` the waffle colors exactly
`round(percent/100 * rows*cols)` cells on, those being precisely the
first indices in row-major order, with cell `i` drawn at
`(i % cols, rows - 1 - i / cols)` (row 0 topmost); in particular 0%
fills none, 100% fills all, and 50% and 59% on a 10×10 grid fill
exactly 50 and 59 cells. -/
theorem C6_waffle_fill (percent : ℚ) (rows cols : Nat)
    (h0 : 0 ≤ percent) (h100 : percent ≤ 100) :
    0 ≤ waffleK percent rows cols ∧
    waffleK percent rows cols ≤ ((rows * cols : Nat) : Int) ∧
    waffleOnCount percent rows cols = (waffleK percent rows cols).toNat ∧
    (∀ i : Nat, waffleCellOn percent rows cols i = true
      ↔ (i : Int) < waffleK percent rows cols) ∧
    (∀ i : Nat, i < rows * cols →
      (waffleCells percent rows cols).getD i (0, 0, false)
        = (i % cols, rows - 1 - i / cols, waffleCellOn percent rows cols i)) ∧
    waffleOnCount 0 rows cols = 0 ∧
    waffleOnCount 100 rows cols = rows * cols ∧
    waffleOnCount 50 10 10 = 50 ∧
    waffleOnCount 59 10 10 = 59 := by
  have htot : (0 : ℚ) ≤ ((rows * cols : Nat) : ℚ) := by positivity
  have hk0 : 0 ≤ waffleK percent rows cols := by
    refine le_roundHalfEven _ 0 ?_
    have : (0 : ℚ) ≤ percent / 100 := by positivity
    simpa using mul_nonneg this htot
  have hk1 : waffleK percent rows cols ≤ ((rows * cols : Nat) : Int) := by
    refine roundHalfEven_le _ _ ?_
    have hcast : ((((rows * cols : Nat) : Int)) : ℚ) = ((rows * cols : Nat) : ℚ) := by
      push_cast
      ring
    rw [hcast]
    have h1 : percent / 100 ≤ 1 := by linarith
    calc percent / 100 * ((rows * cols : Nat) : ℚ)
        ≤ 1 * ((rows * cols : Nat) : ℚ) := mul_le_mul_of_nonneg_right h1 htot
      _ = ((rows * cols : Nat) : ℚ) := one_mul _
  have hcount : ∀ (p : ℚ) (r c : Nat),
      waffleOnCount p r c = (min (waffleK p r c) ((r * c : Nat) : Int)).toNat := by
    intro p r c
    rw [waffleOnCount]
    have : (fun (i : Nat) => waffleCellOn p r c i)
        = fun (i : Nat) => decide ((i : Int) < waffleK p r c) := by
      funext i
      rw [waffleCellOn]
    rw [this, length_filter_range_lt]
  have hK0 : waffleK 0 rows cols = 0 := by
    have : (0 : ℚ) / 100 * ((rows * cols : Nat) : ℚ) = ((0 : Int) : ℚ) := by push_cast; ring
    rw [waffleK, this, roundHalfEven_intCast]
  have hK100 : waffleK 100 rows cols = ((rows * cols : Nat) : Int) := by
    have : (100 : ℚ) / 100 * ((rows * cols : Nat) : ℚ) = (((rows * cols : Nat) : Int) : ℚ) := by
      push_cast
      ring
    rw [waffleK, this, roundHalfEven_intCast]
  refine ⟨hk0, hk1, ?_, fun i => by simp [waffleCellOn], ?_, ?_, ?_, ?_, ?_⟩
  · rw [hcount]
    omega
  · intro i hi
    rw [waffleCells]
    exact getD_map_range _ _ _ hi _
  · rw [hcount, hK0]
    omega
  · rw [hcount, hK100]
    omega
  · rw [hcount]
    have : waffleK 50 10 10 = 50 := by norm_num [waffleK, roundHalfEven]
    rw [this]
    omega
  · rw [hcount]
    have : waffleK 59 10 10 = 59 := by norm_num [waffleK, roundHalfEven]
    rw [this]
    omega

/-- Claim C6, witness: the theorem at `percent = 59` on the 10×10 grid. -/
theorem C6_witness :
    (0 : ℚ) ≤ 59 ∧ (59 : ℚ) ≤ 100 ∧ waffleOnCount 59 10 10 = 59 := by
  have h := C6_waffle_fill 59 10 10 (by norm_num) (by norm_num)
  exact ⟨by norm_num, by norm_num, h.2.2.2.2.2.2.2.2⟩

/-! ## Claim C10 -/

/-- Claim C10: the waffle is total in `percent` — whenever the computed
fill count reaches the grid size every cell is on (the fill saturates),
whenever it is non-positive no cell is on, and the centered percentage
label always renders the given percent (`150` and `-5` are shown
unclamped). -/
theorem C10_waffle_out_of_range (percent : ℚ) (rows cols : Nat) :
    (((rows * cols : Nat) : Int) ≤ waffleK percent rows cols →
      waffleOnCount percent rows cols = rows * cols ∧
      ∀ i : Nat, i < rows * cols → waffleCellOn percent rows cols i = true) ∧
    (waffleK percent rows cols ≤ 0 →
      waffleOnCount percent rows cols = 0 ∧
      ∀ i : Nat, waffleCellOn percent rows cols i = false) ∧
    waffleLabel percent = fmtFixed 0 percent ++ "%" ∧
    waffleLabel 150 = "150%" ∧
    waffleLabel (-5) = "-5%" := by
  have hcount : waffleOnCount percent rows cols
      = (min (waffleK percent rows cols) ((rows * cols : Nat) : Int)).toNat := by
    rw [waffleOnCount]
    have : (fun (i : Nat) => waffleCellOn percent rows cols i)
        = fun (i : Nat) => decide ((i : Int) < waffleK percent rows cols) := by
      funext i
      rw [waffleCellOn]
    rw [this, length_filter_range_lt]
  refine ⟨fun hk => ⟨by rw [hcount]; omega, fun i hi => ?_⟩,
    fun hk => ⟨by rw [hcount]; omega, fun i => ?_⟩, rfl, ?_, ?_⟩
  · rw [waffleCellOn]
    simp only [decide_eq_true_eq]
    omega
  · rw [waffleCellOn]
    simp only [decide_eq_false_iff_not]
    omega
  · have h150 : roundHalfEven ((150 : ℚ) * 10 ^ (0 : Nat)) = 150 := by
      norm_num [roundHalfEven]
    rw [waffleLabel, fmtFixed, h150]
    decide
  · have hm5 : roundHalfEven ((-5 : ℚ) * 10 ^ (0 : Nat)) = -5 := by
      norm_num [roundHalfEven]
    rw [waffleLabel, fmtFixed, hm5]
    decide

/-- Claim C10, witness: the theorem applied at 150% and at −5% on the
10×10 grid. -/
theorem C10_witness :
    ((10 * 10 : Nat) : Int) ≤ waffleK 150 10 10 ∧ waffleOnCount 150 10 10 = 100 ∧
    waffleK (-5) 10 10 ≤ 0 ∧ waffleOnCount (-5) 10 10 = 0 := by
  have h150 : waffleK 150 10 10 = 150 := by norm_num [waffleK, roundHalfEven]
  have hm5 : waffleK (-5) 10 10 = -5 := by norm_num [waffleK, roundHalfEven]
  have ha := (C10_waffle_out_of_range 150 10 10).1 (by rw [h150]; norm_num)
  have hb := (C10_waffle_out_of_range (-5) 10 10).2.1 (by rw [hm5]; norm_num)
  exact ⟨by rw [h150]; norm_num, ha.1, by rw [hm5]; norm_num, hb.1⟩

/-! ## Lemmas about the argsort underlying the lollipop chart -/

/-- Inserting an index permutes consing it. -/
lemma insertIdx_perm (v : List ℚ) (i : Nat) (l : List Nat) :
    (insertIdx v i l).Perm (i :: l) := by
  induction l with
  | nil => simp [insertIdx]
  | cons j rest ih =>
      rw [insertIdx]
      split_ifs with h
      · exact List.Perm.refl _
      · exact List.Perm.trans (List.Perm.cons j ih) (List.Perm.swap i j rest)

/-- An `IdxLe` pair gives at least a value inequality. -/
lemma IdxLe.le {v : List ℚ} {a b : Nat} (h : IdxLe v a b) :
    v.getD a 0 ≤ v.getD b 0 := by
  rcases h with h1 | h2
  · exact le_of_lt h1
  · exact h2.1

/-- Inserting a fresh (younger) index preserves the `IdxLe` ordering. -/
lemma insertIdx_pairwise (v : List ℚ) (i : Nat) (l : List Nat)
    (hlt : ∀ j ∈ l, j < i) (hp : l.Pairwise (IdxLe v)) :
    (insertIdx v i l).Pairwise (IdxLe v) := by
  induction l with
  | nil => simp [insertIdx]
  | cons j rest ih =>
      rw [List.pairwise_cons] at hp
      obtain ⟨hj, hrest⟩ := hp
      rw [insertIdx]
      split_ifs with h
      · refine List.Pairwise.cons ?_ (List.Pairwise.cons hj hrest)
        intro x hx
        rcases List.mem_cons.mp hx with rfl | hx'
        · exact Or.inl h
        · exact Or.inl (lt_of_lt_of_le h (hj x hx').le)
      · refine List.Pairwise.cons ?_
          (ih (fun x hx => hlt x (List.mem_cons_of_mem j hx)) hrest)
        intro x hx
        rcases List.mem_cons.mp ((insertIdx_perm v i rest).mem_iff.mp hx) with rfl | hxr
        · exact Or.inr ⟨not_lt.mp h, hlt j (List.mem_cons_self j rest)⟩
        · exact hj x hxr

/-- The insertion fold permutes appending. -/
lemma foldl_insertIdx_perm (v : List ℚ) :
    ∀ (l acc : List Nat), (l.foldl (fun a i => insertIdx v i a) acc).Perm (acc ++ l) := by
  intro l
  induction l with
  | nil => intro acc; simp
  | cons i rest ih =>
      intro acc
      rw [List.foldl_cons]
      exact List.Perm.trans (ih (insertIdx v i acc))
        (List.Perm.trans ((insertIdx_perm v i acc).append_right rest)
          List.perm_middle.symm)

/-- The insertion fold over strictly increasing fresh indices is `IdxLe`
ordered. -/
lemma foldl_insertIdx_pairwise (v : List ℚ) :
    ∀ (l acc : List Nat), acc.Pairwise (IdxLe v) →
      (∀ j ∈ acc, ∀ i ∈ l, j < i) → l.Pairwise (· < ·) →
      (l.foldl (fun a i => insertIdx v i a) acc).Pairwise (IdxLe v) := by
  intro l
  induction l with
  | nil =>
      intro acc h _ _
      simpa using h
  | cons i rest ih =>
      intro acc hacc hcross hl
      rw [List.pairwise_cons] at hl
      rw [List.foldl_cons]
      refine ih (insertIdx v i acc) ?_ ?_ hl.2
      · exact insertIdx_pairwise v i acc
          (fun j hj => hcross j hj i (List.mem_cons_self i rest)) hacc
      · intro j hj x hx
        rcases List.mem_cons.mp ((insertIdx_perm v i acc).mem_iff.mp hj) with rfl | hja
        · exact hl.1 x hx
        · exact hcross j hja x (List.mem_cons_of_mem i hx)

/-- Permutation: `argsortAsc` permutes the index range. -/
lemma argsortAsc_perm (v : List ℚ) : (argsortAsc v).Perm (List.range v.length) := by
  rw [argsortAsc]
  simpa using foldl_insertIdx_perm v (List.range v.length) []

/-- Ordering: `argsortAsc` is ordered by `IdxLe`: ascending in value, original
index order among equal values. -/
lemma argsortAsc_pairwise (v : List ℚ) : (argsortAsc v).Pairwise (IdxLe v) := by
  rw [argsortAsc]
  refine foldl_insertIdx_pairwise v (List.range v.length) [] List.Pairwise.nil (by simp) ?_
  exact List.pairwise_lt_range _

/-- The rendered index order permutes the index range. -/
lemma lollipopIdx_perm (v : List ℚ) : (lollipopIdx v).Perm (List.range v.length) := by
  rw [lollipopIdx]
  exact (List.reverse_perm _).trans (argsortAsc_perm v)

/-- The rendered index order has length of the input. -/
lemma lollipopIdx_length (v : List ℚ) : (lollipopIdx v).length = v.length := by
  simpa using (lollipopIdx_perm v).length_eq

/-- The rendered index order is non-increasing in value, with equal
values in reverse of their original order. -/
lemma lollipopIdx_pairwise (v : List ℚ) :
    (lollipopIdx v).Pairwise (fun a b => v.getD b 0 < v.getD a 0 ∨
      (v.getD a 0 = v.getD b 0 ∧ b < a)) := by
  rw [lollipopIdx, List.pairwise_reverse]
  refine (argsortAsc_pairwise v).imp ?_
  intro a b h
  rcases h with h1 | h2
  · exact Or.inl h1
  · rcases lt_or_eq_of_le h2.1 with hlt | heq
    · exact Or.inl hlt
    · exact Or.inr ⟨heq.symm, h2.2⟩

/-! ## Lemmas about listMax and argmaxFirst -/

/-- The fold underlying `listMax` dominates the seed and every element. -/
lemma le_foldl_max (xs : List ℚ) :
    ∀ a : ℚ, a ≤ xs.foldl max a ∧ ∀ x ∈ xs, x ≤ xs.foldl max a := by
  induction xs with
  | nil =>
      intro a
      exact ⟨le_refl a, by simp⟩
  | cons y ys ih =>
      intro a
      rw [List.foldl_cons]
      obtain ⟨h1, h2⟩ := ih (max a y)
      refine ⟨le_trans (le_max_left a y) h1, ?_⟩
      intro x hx
      rcases List.mem_cons.mp hx with rfl | hx'
      · exact le_trans (le_max_right a x) h1
      · exact h2 x hx'

/-- Every element is at most the list maximum. -/
lemma le_listMax (l : List ℚ) (x : ℚ) (hx : x ∈ l) : x ≤ listMax l := by
  cases l with
  | nil => cases hx
  | cons a xs =>
      rw [listMax]
      rcases List.mem_cons.mp hx with rfl | hx'
      · exact (le_foldl_max xs x).1
      · exact (le_foldl_max xs a).2 x hx'

/-- The fold underlying `listMax` lands on the seed or an element. -/
lemma foldl_max_mem (xs : List ℚ) : ∀ a : ℚ, xs.foldl max a ∈ a :: xs := by
  induction xs with
  | nil =>
      intro a
      simp
  | cons y ys ih =>
      intro a
      rw [List.foldl_cons]
      rcases List.mem_cons.mp (ih (max a y)) with heq | hmem
      · rcases max_choice a y with h1 | h1
        · rw [heq, h1]
          exact List.mem_cons_self _ _
        · rw [heq, h1]
          exact List.mem_cons_of_mem _ (List.mem_cons_self _ _)
      · exact List.mem_cons_of_mem _ (List.mem_cons_of_mem _ hmem)

/-- On a nonempty list the maximum is attained. -/
lemma listMax_mem (l : List ℚ) (h : l ≠ []) : listMax l ∈ l := by
  cases l with
  | nil => exact absurd rfl h
  | cons a xs =>
      rw [listMax]
      exact foldl_max_mem xs a

/-- A head dominating the tail is the maximum. -/
lemma listMax_eq_of_forall_le (x : ℚ) (xs : List ℚ) (h : ∀ y ∈ xs, y ≤ x) :
    listMax (x :: xs) = x := by
  have h1 : x ≤ listMax (x :: xs) := le_listMax _ x (List.mem_cons_self x xs)
  have h2 : listMax (x :: xs) ≤ x := by
    rcases List.mem_cons.mp (listMax_mem (x :: xs) (by simp)) with heq | hmem
    · exact le_of_eq heq
    · exact h _ hmem
  exact le_antisymm h2 h1

/-- Python `np.argmax` of a list whose head dominates the tail is index 0. -/
lemma argmaxFirst_cons_eq_zero (x : ℚ) (xs : List ℚ) (h : ∀ y ∈ xs, y ≤ x) :
    argmaxFirst (x :: xs) = 0 := by
  rw [argmaxFirst, listMax_eq_of_forall_le x xs h]
  simp

/-- The maximum `listMax` only depends on the multiset of elements. -/
lemma listMax_eq_of_perm (a b : List ℚ) (hp : a.Perm b) (hne : a ≠ []) :
    listMax a = listMax b := by
  have hne2 : b ≠ [] := by
    intro hb
    rw [hb] at hp
    exact hne hp.eq_nil
  refine le_antisymm ?_ ?_
  · exact le_listMax b _ (hp.mem_iff.mp (listMax_mem a hne))
  · exact le_listMax a _ (hp.mem_iff.mpr (listMax_mem b hne2))

/-- Reading `getD` through a `map`, given an in-range index. -/
lemma getD_map_of_lt {α β : Type} (f : α → β) (l : List α) (i : Nat)
    (h : i < l.length) (d : β) (e : α) : (l.map f).getD i d = f (l.getD i e) := by
  rw [List.getD_eq_getElem?_getD, List.getElem?_map, List.getElem?_eq_getElem h,
    List.getD_eq_getElem?_getD, List.getElem?_eq_getElem h]
  rfl

/-- Reading every position of a list back with `getD` is the list. -/
lemma map_getD_range_self {α : Type} (d : α) :
    ∀ l : List α, (List.range l.length).map (fun i => l.getD i d) = l := by
  intro l
  induction l with
  | nil => simp
  | cons x xs ih =>
      rw [List.length_cons, List.range_succ_eq_map, List.map_cons, List.map_map]
      simp only [List.getD_cons_zero]
      have hcomp : ((fun i => (x :: xs).getD i d) ∘ Nat.succ) = fun i => xs.getD i d := by
        funext i
        simp
      rw [hcomp, ih]

/-- The lollipop render, written as one map over row positions. -/
lemma lollipop_rows_eq (labels : List String) (values : List ℚ) (unit c hc : String) :
    lollipop_horizontal labels values unit c hc
      = (List.range ((lollipopIdx values).map (fun j => values.getD j 0)).length).map
        (fun i =>
          { label := ((lollipopIdx values).map (fun j => labels.getD j "")).getD i ""
            value := ((lollipopIdx values).map (fun j => values.getD j 0)).getD i 0
            dotColor :=
              if i = argmaxFirst ((lollipopIdx values).map (fun j => values.getD j 0))
              then hc else c
            weightTxt :=
              if i = argmaxFirst ((lollipopIdx values).map (fun j => values.getD j 0))
              then "bold" else "500"
            labelX := ((lollipopIdx values).map (fun j => values.getD j 0)).getD i 0
              + listMax ((lollipopIdx values).map (fun j => values.getD j 0)) * 3 / 100
            decimals := if strEndsWith unit "년" then 2 else 1
            valText := fmtFixed (if strEndsWith unit "년" then 2 else 1)
              (((lollipopIdx values).map (fun j => values.getD j 0)).getD i 0) ++ unit }) :=
  rfl

/-- The sorted value sequence permutes the input values. -/
lemma lollipop_values_perm (values : List ℚ) :
    ((lollipopIdx values).map (fun j => values.getD j 0)).Perm values := by
  have h := (lollipopIdx_perm values).map (fun j => values.getD j 0)
  rwa [map_getD_range_self] at h

/-- Everything the lollipop claims need about the rendered rows: the row
count, the highlighted position, the maximum, and the full content of
each row. -/
lemma lollipop_props (labels : List String) (values : List ℚ) (unit c hc : String)
    (hne : values ≠ []) :
    (lollipop_horizontal labels values unit c hc).length = values.length ∧
    argmaxFirst ((lollipopIdx values).map (fun j => values.getD j 0)) = 0 ∧
    listMax ((lollipopIdx values).map (fun j => values.getD j 0)) = listMax values ∧
    ∀ i, i < values.length →
      (lollipop_horizontal labels values unit c hc).getD i default =
        { label := labels.getD ((lollipopIdx values).getD i 0) ""
          value := values.getD ((lollipopIdx values).getD i 0) 0
          dotColor := if i = 0 then hc else c
          weightTxt := if i = 0 then "bold" else "500"
          labelX := values.getD ((lollipopIdx values).getD i 0) 0 + listMax values * 3 / 100
          decimals := if strEndsWith unit "년" then 2 else 1
          valText := fmtFixed (if strEndsWith unit "년" then 2 else 1)
            (values.getD ((lollipopIdx values).getD i 0) 0) ++ unit } := by
  have hidxlen : (lollipopIdx values).length = values.length := lollipopIdx_length values
  have hvslen : ((lollipopIdx values).map (fun j => values.getD j 0)).length
      = values.length := by
    rw [List.length_map, hidxlen]
  have hperm := lollipop_values_perm values
  have hvsne : (lollipopIdx values).map (fun j => values.getD j 0) ≠ [] := by
    have h0 : 0 < values.length := List.length_pos.mpr hne
    intro hnil
    rw [← hvslen, hnil] at h0
    simp at h0
  have hmax : listMax ((lollipopIdx values).map (fun j => values.getD j 0))
      = listMax values := listMax_eq_of_perm _ _ hperm hvsne
  have harg : argmaxFirst ((lollipopIdx values).map (fun j => values.getD j 0)) = 0 := by
    have hlen0 : 0 < (lollipopIdx values).length := by
      rw [hidxlen]
      exact List.length_pos.mpr hne
    cases hidx : lollipopIdx values with
    | nil =>
        rw [hidx] at hlen0
        cases hlen0
    | cons a rest =>
        have hpw := lollipopIdx_pairwise values
        rw [hidx, List.pairwise_cons] at hpw
        rw [List.map_cons]
        refine argmaxFirst_cons_eq_zero _ _ ?_
        intro y hy
        obtain ⟨b, hb, rfl⟩ := List.mem_map.mp hy
        rcases hpw.1 b hb with hlt | heq
        · exact le_of_lt hlt
        · exact le_of_eq heq.1.symm
  refine ⟨?_, harg, hmax, ?_⟩
  · rw [lollipop_rows_eq, List.length_map, List.length_range, hvslen]
  · intro i hi
    have hi' : i < ((lollipopIdx values).map (fun j => values.getD j 0)).length := by
      rw [hvslen]
      exact hi
    have hiidx : i < (lollipopIdx values).length := by
      rw [hidxlen]
      exact hi
    rw [lollipop_rows_eq, getD_map_range _ _ _ hi', harg, hmax,
      getD_map_of_lt (fun j => labels.getD j "") _ i hiidx "" 0,
      getD_map_of_lt (fun j => values.getD j 0) _ i hiidx 0 0]

/-- The rendered value sequence is non-increasing. -/
lemma lollipop_values_sorted (values : List ℚ) :
    ((lollipopIdx values).map (fun j => values.getD j 0)).Pairwise (fun x y => y ≤ x) := by
  refine List.Pairwise.map _ ?_ (lollipopIdx_pairwise values)
  intro a b h
  rcases h with h1 | h2
  · exact le_of_lt h1
  · exact le_of_eq h2.1.symm

/-- The head of a non-increasing list is its maximum. -/
lemma listMax_eq_head_of_sorted (l : List ℚ) (hp : l.Pairwise (fun x y => y ≤ x))
    (hne : l ≠ []) : listMax l = l.getD 0 0 := by
  cases l with
  | nil => exact absurd rfl hne
  | cons x xs =>
      rw [List.pairwise_cons] at hp
      rw [List.getD_cons_zero]
      exact listMax_eq_of_forall_le x xs hp.1

/-- The top rendered row carries the maximum of the input values. -/
lemma lollipop_head_max (values : List ℚ) (hne : values ≠ []) :
    values.getD ((lollipopIdx values).getD 0 0) 0 = listMax values := by
  have hidxlen : (lollipopIdx values).length = values.length := lollipopIdx_length values
  have h0 : 0 < (lollipopIdx values).length := by
    rw [hidxlen]
    exact List.length_pos.mpr hne
  have hvsne : (lollipopIdx values).map (fun j => values.getD j 0) ≠ [] := by
    intro hnil
    rw [List.map_eq_nil_iff] at hnil
    rw [hnil] at h0
    cases h0
  have hgot : ((lollipopIdx values).map (fun j => values.getD j 0)).getD 0 0
      = values.getD ((lollipopIdx values).getD 0 0) 0 :=
    getD_map_of_lt _ _ 0 h0 0 0
  rw [← hgot, ← listMax_eq_head_of_sorted _ (lollipop_values_sorted values) hvsne]
  exact listMax_eq_of_perm _ _ (lollipop_values_perm values) hvsne

/-! ## Claim C5 -/

/-- Claim C5, counterexample: on the tied input `[1, 1]` the rendered
order is `["b", "a"]` — equal values appear in reverse of their input
order, not preserved as the claim states — and the highlighted entry
(row 0) is `"b"`, the last original occurrence of the maximum, not the
first. -/
theorem C5_counterexample :
    (lollipop_horizontal ["a", "b"] [1, 1] "℃" "#4C78A8" "#E45756").map LRow.label
      ≠ ["a", "b"] ∧
    (lollipop_horizontal ["a", "b"] [1, 1] "℃" "#4C78A8" "#E45756").map LRow.label
      = ["b", "a"] ∧
    (lollipop_horizontal ["a", "b"] [1, 1] "℃" "#4C78A8" "#E45756").map LRow.dotColor
      = ["#E45756", "#4C78A8"] := by
  refine ⟨?_, ?_, ?_⟩ <;> decide

/-- Claim C5, amended: the rows are rendered in non-increasing value
order, with equal values in reverse of their input order (the rendered
index list is a permutation of the input positions, pairwise ordered by
value descending with reversed ties); exactly the row at sorted position
0 — which carries the maximum value, the last original occurrence of it
in case of duplicates — is drawn in `highlight_color` with bold label
weight, all others in `color` with weight 500. -/
theorem C5_sorted_highlight (labels : List String) (values : List ℚ)
    (unit c hc : String) (hne : values ≠ []) :
    (lollipopIdx values).Perm (List.range values.length) ∧
    (lollipopIdx values).Pairwise (fun a b => values.getD b 0 < values.getD a 0 ∨
      (values.getD a 0 = values.getD b 0 ∧ b < a)) ∧
    (lollipop_horizontal labels values unit c hc).length = values.length ∧
    (∀ i, i < values.length →
      ((lollipop_horizontal labels values unit c hc).getD i default).value
        = values.getD ((lollipopIdx values).getD i 0) 0 ∧
      ((lollipop_horizontal labels values unit c hc).getD i default).label
        = labels.getD ((lollipopIdx values).getD i 0) "" ∧
      ((lollipop_horizontal labels values unit c hc).getD i default).dotColor
        = (if i = 0 then hc else c) ∧
      ((lollipop_horizontal labels values unit c hc).getD i default).weightTxt
        = (if i = 0 then "bold" else "500")) ∧
    ((lollipop_horizontal labels values unit c hc).getD 0 default).value
      = listMax values := by
  obtain ⟨hlen, harg, hmax, hrow⟩ := lollipop_props labels values unit c hc hne
  have h0 : 0 < values.length := List.length_pos.mpr hne
  refine ⟨lollipopIdx_perm values, lollipopIdx_pairwise values, hlen, ?_, ?_⟩
  · intro i hi
    rw [hrow i hi]
    exact ⟨rfl, rfl, rfl, rfl⟩
  · rw [hrow 0 h0]
    exact lollipop_head_max values hne

/-- Claim C5, witness: the amended theorem on a concrete chart. -/
theorem C5_witness :
    ([1, 3, 2] : List ℚ) ≠ [] ∧
    (lollipop_horizontal ["a", "b", "c"] [1, 3, 2] "℃" "#4C78A8" "#E45756").length = 3 ∧
    ((lollipop_horizontal ["a", "b", "c"] [1, 3, 2] "℃" "#4C78A8" "#E45756").getD 0
      default).dotColor = "#E45756" ∧
    ((lollipop_horizontal ["a", "b", "c"] [1, 3, 2] "℃" "#4C78A8" "#E45756").getD 0
      default).value = listMax [1, 3, 2] := by
  have hne : ([1, 3, 2] : List ℚ) ≠ [] := by simp
  have h := C5_sorted_highlight ["a", "b", "c"] [1, 3, 2] "℃" "#4C78A8" "#E45756" hne
  have h0 : (0 : Nat) < ([1, 3, 2] : List ℚ).length := by simp
  refine ⟨hne, ?_, ?_, h.2.2.2.2⟩
  · rw [h.2.2.1]
    simp
  · rw [(h.2.2.2.1 0 h0).2.2.1]
    simp

/-! ## Claim C9 -/

/-- Claim C9: each value label sits at its value plus 3% of the maximum
value, and is formatted with two decimal places iff the unit string ends
with the rate-suffix token "년", one decimal place otherwise. -/
theorem C9_label_offset_and_format (labels : List String) (values : List ℚ)
    (unit c hc : String) (hne : values ≠ []) (i : Nat) (hi : i < values.length) :
    ((lollipop_horizontal labels values unit c hc).getD i default).labelX
      = ((lollipop_horizontal labels values unit c hc).getD i default).value
        + listMax values * 3 / 100 ∧
    (((lollipop_horizontal labels values unit c hc).getD i default).decimals = 2
      ↔ strEndsWith unit "년" = true) ∧
    (((lollipop_horizontal labels values unit c hc).getD i default).decimals = 1
      ↔ strEndsWith unit "년" = false) ∧
    ((lollipop_horizontal labels values unit c hc).getD i default).valText
      = fmtFixed ((lollipop_horizontal labels values unit c hc).getD i default).decimals
          ((lollipop_horizontal labels values unit c hc).getD i default).value ++ unit := by
  obtain ⟨hlen, harg, hmax, hrow⟩ := lollipop_props labels values unit c hc hne
  rw [hrow i hi]
  refine ⟨rfl, ?_, ?_, rfl⟩
  · by_cases hu : strEndsWith unit "년" = true
    · simp [hu]
    · simp [hu]
  · by_cases hu : strEndsWith unit "년" = true
    · simp [hu]
    · simp [hu]

/-- Claim C9, witness: a rate-unit chart gets the two-decimal format and
the 3%-of-maximum offset. -/
theorem C9_witness :
    ([2] : List ℚ) ≠ [] ∧ (0 : Nat) < ([2] : List ℚ).length ∧
    ((lollipop_horizontal ["서해"] [2] "℃/년" "#59A14F" "#E45756").getD 0
      default).labelX
      = ((lollipop_horizontal ["서해"] [2] "℃/년" "#59A14F" "#E45756").getD 0
          default).value + listMax [2] * 3 / 100 ∧
    ((lollipop_horizontal ["서해"] [2] "℃/년" "#59A14F" "#E45756").getD 0
      default).decimals = 2 := by
  have hne : ([2] : List ℚ) ≠ [] := by simp
  have h0 : (0 : Nat) < ([2] : List ℚ).length := by simp
  have h := C9_label_offset_and_format ["서해"] [2] "℃/년" "#59A14F" "#E45756" hne 0 h0
  exact ⟨hne, h0, h.1, h.2.1.mpr (by decide)⟩
